import Mathlib

/-!
Verification of the password-generation core of `passgen`
(`src/passall.tsx`): character-set building, word fetching with
round-robin provider rotation and local/synthetic fallback, password
composition, and the Caesar cipher transform.

Randomness (`Math.random()`-derived draws) is modelled by explicit
oracles: a function giving, for each draw site, the index the uniform
draw produced.  JavaScript strings are modelled as `List Char` (or
`String` where the source manipulates whole words).
--/

namespace PassGen

/-- JS `String.prototype.charAt`: the one-character string at index `i`,
or the empty string when `i` is out of range. -/
def charAt (s : List Char) (i : Nat) : List Char :=
  match s.get? i with
  | some c => [c]
  | none => []

/-- Source: `const lower = "abcdefghijklmnopqrstuvwxyz"`. -/
def lower : List Char := "abcdefghijklmnopqrstuvwxyz".toList

/-- Source: `const upper = lower.toUpperCase()`. -/
def upper : List Char := lower.map Char.toUpper

/-- Source: `const numbers = "0123456789"`. -/
def numbers : List Char := "0123456789".toList

/-- Source: `const symbols = "!@#$%^&*()_+\x7b\x7d:\"<>?|[];',./~\\"` plus
backtick; the 30 characters are given here by their ASCII codes, in the
source's order. -/
def symbols : List Char :=
  [33, 64, 35, 36, 37, 94, 38, 42, 40, 41, 95, 43, 123, 125, 58, 34,
   60, 62, 63, 124, 91, 93, 59, 39, 44, 46, 47, 96, 126, 92].map Char.ofNat

/-- The literal word array of the source, before the `length >= 4` filter. -/
def localWordsRaw : List String :=
  ["avocado", "bamboo", "cascade", "delight", "echo",
   "flamingo", "gazelle", "harmony", "ivory", "jubilee",
   "koala", "lagoon", "mango", "nirvana", "octopus",
   "penguin", "quasar", "rainbow", "sunset", "tundra",
   "umbra", "vortex", "waterfall", "xylophone", "yellow",
   "zebra", "alpine", "blossom", "coral", "dolphin",
   "evergreen", "firefly", "glacier", "honeydew", "island",
   "jungle", "kiwi", "lighthouse", "mountain", "nebula",
   "oasis", "peacock", "quartz", "river", "starlight",
   "tropical", "unicorn", "volcano", "whirlpool", "xenon", "cats",
   "dogs", "duck", "golf", "jazz", "owls", "moon"]

/-- Source: `const localWords = [...].filter(word => word.length >= 4)`. -/
def localWords : List String :=
  localWordsRaw.filter (fun w => 4 ≤ w.length)

/-- Source: `type WordCase = "lower" | "upper" | "random"`. -/
inductive WordCase where
  | lower
  | upper
  | random
deriving DecidableEq

/-- Source: `randomizeCase`; `coin i` models the i-th `Math.random() > 0.5`
draw (true selects upper case). -/
def randomizeCase (word : List Char) (coin : Nat → Bool) : List Char :=
  word.enum.map (fun p => if coin p.1 then p.2.toUpper else p.2.toLower)

/-- Source: `applyWordCase(word, caseType)`. -/
def applyWordCase (word : List Char) (caseType : WordCase) (coin : Nat → Bool) : List Char :=
  match caseType with
  | .lower => word.map Char.toLower
  | .upper => word.map Char.toUpper
  | .random => randomizeCase word coin

/-- Source: `WORD_APIS.length` — the provider list is fixed at 4 entries. -/
def NUM_APIS : Nat := 4

/-- Outcome of one provider attempt, condensed as the source's control flow
sees it: `some w` when the HTTP call succeeded, the body parsed, and the
parser produced the string `w`; `none` when the fetch threw (timeout or
network error), the status was non-success, or the parser produced no
string.  The accepted-word test of the source is
`if (word && word.length <= maxLength) return word`, i.e. the word must be
truthy (non-empty) and within the bound. -/
def attemptAccepts (maxLength : Nat) : Option String → Bool
  | some w => w.length != 0 && w.length ≤ maxLength
  | none => false

/-- Result of the provider loop of `fetchRandomWord`: the accepted word (if
any), the value of the module-level `apiIndex` cursor after the loop, and
the trace of provider indices attempted, in order (the source indexes
`WORD_APIS[apiIndex % WORD_APIS.length]`). -/
structure FetchResult where
  word : Option String
  cursor : Nat
  trace : List Nat
deriving DecidableEq

/-- The `for (let i = 0; i < attempts; i++)` loop of `fetchRandomWord`:
`outcomes v` is the attempt outcome when the cursor (`apiIndex`) has
absolute value `v`; the cursor advances by one per attempt and the loop
returns as soon as an attempt is accepted. -/
def fetchLoop (outcomes : Nat → Option String) (maxLength : Nat) : Nat → Nat → FetchResult
  | 0, cursor => ⟨none, cursor, []⟩
  | attempts + 1, cursor =>
    if attemptAccepts maxLength (outcomes cursor) then
      ⟨outcomes cursor, cursor + 1, [cursor % NUM_APIS]⟩
    else
      let r := fetchLoop outcomes maxLength attempts (cursor + 1)
      ⟨r.word, r.cursor, (cursor % NUM_APIS) :: r.trace⟩

/-- Source: `const vowels = "aeiou"`. -/
def vowels : List Char := "aeiou".toList

/-- Source: `const consonants = "bcdfghjklmnpqrstvwxyz"`. -/
def consonants : List Char := "bcdfghjklmnpqrstvwxyz".toList

/-- Source: `generateFallbackWord(length)`; `consPick i` / `vowelPick i`
model the uniform index draws `Math.floor(Math.random() * pool.length)`
at position `i`. -/
def generateFallbackWord (consPick vowelPick : Nat → Nat) (length : Nat) : List Char :=
  ((List.range length).map (fun i =>
    if i % 2 = 0 then charAt consonants (consPick i) else charAt vowels (vowelPick i))).flatten

/-- Source: `const validWords = localWords.filter(word => word.length <= maxLength)`
inside `fetchRandomWord`. -/
def validWords (maxLength : Nat) : List String :=
  localWords.filter (fun w => w.length ≤ maxLength)

/-- Source: `fetchRandomWord(maxLength)`.  `dictPick` models the uniform
dictionary-index draw `Math.floor(Math.random() * validWords.length)`;
`cursor` is the value of the module-level `apiIndex` at entry.  Returns
the word together with the cursor value after the call.  The source's
`validWords[...] || generateFallbackWord(maxLength)` falls through to the
synthetic generator exactly when the lookup yields no word. -/
def fetchRandomWord (outcomes : Nat → Option String) (dictPick : Nat)
    (consPick vowelPick : Nat → Nat) (maxLength : Nat) (cursor : Nat) : String × Nat :=
  let r := fetchLoop outcomes maxLength NUM_APIS cursor
  match r.word with
  | some w => (w, r.cursor)
  | none =>
    match (validWords maxLength).get? dictPick with
    | some w => (w, r.cursor)
    | none => (String.mk (generateFallbackWord consPick vowelPick maxLength), r.cursor)

/-- Source: `generateRandomChars(length, charSet)`; `pick i` models the
uniform index draw `Math.floor(Math.random() * charSet.length)` for the
i-th character. -/
def generateRandomChars (pick : Nat → Nat) (length : Nat) (charSet : List Char) : List Char :=
  ((List.range length).map (fun i => charAt charSet (pick i))).flatten

/-- The option record of `generatePassword`. -/
structure GenerationOptions where
  lower : Bool
  upper : Bool
  numbers : Bool
  symbols : Bool
  word : Bool
deriving DecidableEq

/-- The character-set building prelude of `generatePassword`: successive
`charSet += ...` for each enabled flag, in declaration order. -/
def buildCharSet (o : GenerationOptions) : List Char :=
  (if o.lower then lower else []) ++
  (if o.upper then upper else []) ++
  (if o.numbers then numbers else []) ++
  (if o.symbols then symbols else [])

/-- Source: `generatePassword(length, options, wordCase)`.  The word
source is abstracted as `fetchWord` (the source awaits
`fetchRandomWord(Math.min(length, 8))`); `fillerPick` models the draws
inside `generateRandomChars`, `insertPick` the draw
`Math.floor(Math.random() * (randomChars.length + 1))`, and `coin` the
draws of `randomizeCase`.  `remainingLength` uses natural subtraction:
the JS test `remainingLength > 0` agrees with `0 < length - wordLength`
on naturals.  The two source branches returning
`caseAdjustedWord.slice(0, length)` are merged into one `else`. -/
def generatePassword (fetchWord : Nat → List Char) (fillerPick : Nat → Nat)
    (insertPick : Nat) (coin : Nat → Bool) (length : Nat)
    (options : GenerationOptions) (wordCase : WordCase) : List Char :=
  let charSet := buildCharSet options
  if charSet.isEmpty && !options.word then []
  else if options.word then
    let word := fetchWord (min length 8)
    let caseAdjustedWord := applyWordCase word wordCase coin
    let remainingLength := length - caseAdjustedWord.length
    if !charSet.isEmpty && decide (0 < remainingLength) then
      let randomChars := generateRandomChars fillerPick remainingLength charSet
      randomChars.take insertPick ++ caseAdjustedWord ++ randomChars.drop insertPick
    else
      caseAdjustedWord.take length
  else
    generateRandomChars fillerPick length charSet

/-- The test `char >= 'a' && char <= 'z'` of the source (by char code). -/
def isLowerAlpha (c : Char) : Bool := 97 ≤ c.toNat && c.toNat ≤ 122

/-- The complementary ASCII-uppercase test (the regex `/[a-z]/gi` matches
exactly the ASCII letters of either case). -/
def isUpperAlpha (c : Char) : Bool := 65 ≤ c.toNat && c.toNat ≤ 90

/-- Per-character action of `caesarCipher`: an ASCII letter is replaced by
`((code - base + shift + 26) % 26) + base` with `base` 97 for lower case
and 65 for upper case; any other character is left unchanged (the regex
replaces letters only). -/
def caesarShiftChar (shift : Nat) (c : Char) : Char :=
  if isLowerAlpha c then Char.ofNat ((c.toNat - 97 + shift + 26) % 26 + 97)
  else if isUpperAlpha c then Char.ofNat ((c.toNat - 65 + shift + 26) % 26 + 65)
  else c

/-- Source: `caesarCipher(text, shift)` —
`text.replace(/[a-z]/gi, ...)` applies `caesarShiftChar` to every
character (non-letters are untouched). -/
def caesarCipher (text : List Char) (shift : Nat) : List Char :=
  text.map (caesarShiftChar shift)

/-- Entry cursor of the i-th consecutive `fetchRandomWord` call, starting
from the module-initial `apiIndex = 0`: each call leaves the cursor where
its provider loop ended. -/
def iterateCalls (outcomes : Nat → Option String) (maxLength : Nat) : Nat → Nat
  | 0 => 0
  | i + 1 => (fetchLoop outcomes maxLength NUM_APIS
      (iterateCalls outcomes maxLength i)).cursor

/-! Helper lemmas. -/

theorem charAt_length_le (s : List Char) (i : Nat) : (charAt s i).length ≤ 1 := by
  unfold charAt
  cases s.get? i <;> simp

theorem charAt_of_lt (s : List Char) (i : Nat) (h : i < s.length) :
    charAt s i = [s.get ⟨i, h⟩] := by
  unfold charAt
  rw [List.get?_eq_get h]

theorem mem_of_mem_charAt {s : List Char} {i : Nat} {c : Char}
    (h : c ∈ charAt s i) : c ∈ s := by
  unfold charAt at h
  cases hg : s.get? i with
  | some d =>
    rw [hg] at h
    simp at h
    exact h ▸ List.get?_mem hg
  | none => rw [hg] at h; simp at h

theorem length_flatten_le_of_le_one {α : Type} (L : List (List α))
    (h : ∀ l ∈ L, l.length ≤ 1) : L.flatten.length ≤ L.length := by
  induction L with
  | nil => simp
  | cons a t ih =>
    simp only [List.flatten_cons, List.length_append, List.length_cons]
    have ha := h a (by simp)
    have ht := ih (fun l hl => h l (by simp [hl]))
    omega

theorem flatten_map_singleton {α β : Type} (l : List α) (f : α → β) :
    (l.map (fun i => [f i])).flatten = l.map f := by
  induction l with
  | nil => rfl
  | cons a t ih => simp [ih]

theorem generateRandomChars_length_le (pick : Nat → Nat) (n : Nat) (charSet : List Char) :
    (generateRandomChars pick n charSet).length ≤ n := by
  have h := length_flatten_le_of_le_one
    ((List.range n).map fun i => charAt charSet (pick i)) ?_
  · simpa [generateRandomChars] using h
  · intro l hl
    simp only [List.mem_map] at hl
    obtain ⟨i, _, rfl⟩ := hl
    exact charAt_length_le _ _

theorem generateRandomChars_eq (pick : Nat → Nat) (n : Nat) (charSet : List Char)
    (h : ∀ i, pick i < charSet.length) :
    generateRandomChars pick n charSet =
      (List.range n).map (fun i => charSet.get ⟨pick i, h i⟩) := by
  unfold generateRandomChars
  rw [List.map_congr_left (fun i _ => charAt_of_lt charSet (pick i) (h i)),
    flatten_map_singleton]

theorem generateRandomChars_length (pick : Nat → Nat) (n : Nat) (charSet : List Char)
    (h : ∀ i, pick i < charSet.length) :
    (generateRandomChars pick n charSet).length = n := by
  rw [generateRandomChars_eq pick n charSet h]
  simp

theorem mem_generateRandomChars {pick : Nat → Nat} {n : Nat} {charSet : List Char}
    {c : Char} (hc : c ∈ generateRandomChars pick n charSet) : c ∈ charSet := by
  unfold generateRandomChars at hc
  rw [List.mem_flatten] at hc
  obtain ⟨l, hl, hcl⟩ := hc
  simp only [List.mem_map] at hl
  obtain ⟨i, _, rfl⟩ := hl
  exact mem_of_mem_charAt hcl

theorem generateFallbackWord_length_le (consPick vowelPick : Nat → Nat) (n : Nat) :
    (generateFallbackWord consPick vowelPick n).length ≤ n := by
  have h := length_flatten_le_of_le_one
    ((List.range n).map fun i =>
      if i % 2 = 0 then charAt consonants (consPick i) else charAt vowels (vowelPick i)) ?_
  · simpa [generateFallbackWord] using h
  · intro l hl
    simp only [List.mem_map] at hl
    obtain ⟨i, _, rfl⟩ := hl
    split <;> exact charAt_length_le _ _

theorem generateFallbackWord_eq (consPick vowelPick : Nat → Nat) (n : Nat)
    (h1 : ∀ i, consPick i < consonants.length) (h2 : ∀ i, vowelPick i < vowels.length) :
    generateFallbackWord consPick vowelPick n =
      (List.range n).map (fun i =>
        if i % 2 = 0 then consonants.get ⟨consPick i, h1 i⟩
        else vowels.get ⟨vowelPick i, h2 i⟩) := by
  unfold generateFallbackWord
  rw [List.map_congr_left (g := fun i =>
      [if i % 2 = 0 then consonants.get ⟨consPick i, h1 i⟩
       else vowels.get ⟨vowelPick i, h2 i⟩]) ?_, flatten_map_singleton]
  intro i _
  by_cases hi : i % 2 = 0
  · simp [hi, charAt_of_lt _ _ (h1 i)]
  · simp [hi, charAt_of_lt _ _ (h2 i)]

theorem applyWordCase_length (word : List Char) (caseType : WordCase) (coin : Nat → Bool) :
    (applyWordCase word caseType coin).length = word.length := by
  cases caseType <;> simp [applyWordCase, randomizeCase, List.enum_length]

theorem fetchLoop_cursor (outcomes : Nat → Option String) (m : Nat) :
    ∀ n c, (fetchLoop outcomes m n c).cursor = c + (fetchLoop outcomes m n c).trace.length := by
  intro n
  induction n with
  | zero => intro c; simp [fetchLoop]
  | succ k ih =>
    intro c
    unfold fetchLoop
    split
    · simp
    · simp only [List.length_cons]
      rw [ih (c + 1)]
      omega

theorem fetchLoop_trace_eq (outcomes : Nat → Option String) (m : Nat) :
    ∀ n c, (fetchLoop outcomes m n c).trace =
      (List.range (fetchLoop outcomes m n c).trace.length).map
        (fun j => (c + j) % NUM_APIS) := by
  intro n
  induction n with
  | zero => intro c; simp [fetchLoop]
  | succ k ih =>
    intro c
    unfold fetchLoop
    split
    · simp [List.range_succ]
    · dsimp only
      rw [List.length_cons, List.range_succ_eq_map, List.map_cons, List.map_map]
      refine congrArg₂ List.cons (by simp) ?_
      rw [ih (c + 1)]
      simp only [List.length_map, List.length_range]
      refine List.map_congr_left ?_
      intro j _
      simp only [Function.comp_apply]
      congr 1
      omega

theorem fetchLoop_word_spec (outcomes : Nat → Option String) (m : Nat) :
    ∀ n c w, (fetchLoop outcomes m n c).word = some w →
      w.length ≠ 0 ∧ w.length ≤ m := by
  intro n
  induction n with
  | zero => intro c w h; simp [fetchLoop] at h
  | succ k ih =>
    intro c w h
    unfold fetchLoop at h
    split at h <;> rename_i hacc
    · simp only at h
      rw [h] at hacc
      unfold attemptAccepts at hacc
      simp at hacc
      exact hacc
    · exact ih (c + 1) w h

theorem fetchLoop_all_fail (outcomes : Nat → Option String) (m : Nat)
    (hf : ∀ v, attemptAccepts m (outcomes v) = false) :
    ∀ n c, fetchLoop outcomes m n c =
      ⟨none, c + n, (List.range n).map (fun j => (c + j) % NUM_APIS)⟩ := by
  intro n
  induction n with
  | zero => intro c; simp [fetchLoop]
  | succ k ih =>
    intro c
    unfold fetchLoop
    rw [if_neg (by simp [hf c])]
    dsimp only
    rw [ih (c + 1)]
    dsimp only
    refine congrArg₂ (FetchResult.mk none) (by omega) ?_
    rw [List.range_succ_eq_map, List.map_cons, List.map_map]
    refine congrArg₂ List.cons (by simp) ?_
    refine List.map_congr_left ?_
    intro j _
    simp only [Function.comp_apply]
    congr 1
    omega

theorem iterateCalls_all_fail (outcomes : Nat → Option String) (m : Nat)
    (hf : ∀ v, attemptAccepts m (outcomes v) = false) :
    ∀ i, iterateCalls outcomes m i = i * NUM_APIS := by
  intro i
  induction i with
  | zero => rfl
  | succ k ih =>
    unfold iterateCalls
    rw [ih, fetchLoop_all_fail outcomes m hf]
    show k * NUM_APIS + NUM_APIS = (k + 1) * NUM_APIS
    ring

theorem fetchRandomWord_dict_case (outcomes : Nat → Option String) (dictPick : Nat)
    (consPick vowelPick : Nat → Nat) (maxLength cursor : Nat)
    (hf : ∀ v, attemptAccepts maxLength (outcomes v) = false)
    (h : dictPick < (validWords maxLength).length) :
    (fetchRandomWord outcomes dictPick consPick vowelPick maxLength cursor).1 =
      (validWords maxLength).get ⟨dictPick, h⟩ := by
  unfold fetchRandomWord
  rw [fetchLoop_all_fail outcomes maxLength hf]
  dsimp only
  rw [List.get?_eq_get h]

theorem fetchRandomWord_synth_case (outcomes : Nat → Option String) (dictPick : Nat)
    (consPick vowelPick : Nat → Nat) (maxLength cursor : Nat)
    (hf : ∀ v, attemptAccepts maxLength (outcomes v) = false)
    (h : validWords maxLength = []) :
    (fetchRandomWord outcomes dictPick consPick vowelPick maxLength cursor).1 =
      String.mk (generateFallbackWord consPick vowelPick maxLength) := by
  unfold fetchRandomWord
  rw [fetchLoop_all_fail outcomes maxLength hf]
  dsimp only
  rw [h]
  rfl

theorem generateFallbackWord_length (consPick vowelPick : Nat → Nat) (n : Nat)
    (h1 : ∀ i, consPick i < consonants.length) (h2 : ∀ i, vowelPick i < vowels.length) :
    (generateFallbackWord consPick vowelPick n).length = n := by
  rw [generateFallbackWord_eq consPick vowelPick n h1 h2]
  simp

theorem generateFallbackWord_get_mem (consPick vowelPick : Nat → Nat) (n : Nat)
    (h1 : ∀ i, consPick i < consonants.length) (h2 : ∀ i, vowelPick i < vowels.length)
    (i : Nat) (h : i < (generateFallbackWord consPick vowelPick n).length) :
    (generateFallbackWord consPick vowelPick n).get ⟨i, h⟩ ∈
      (if i % 2 = 0 then consonants else vowels) := by
  have he := generateFallbackWord_eq consPick vowelPick n h1 h2
  have hi : i < n := by
    have := generateFallbackWord_length consPick vowelPick n h1 h2
    omega
  rw [List.get_of_eq he ⟨i, h⟩]
  simp only [List.get_eq_getElem, List.getElem_map, List.getElem_range]
  by_cases hp : i % 2 = 0
  · simp only [hp, if_true]
    exact List.get_mem _ _ _
  · simp only [hp, if_false]
    exact List.get_mem _ _ _

theorem echo_mem_validWords (m : Nat) (h : 4 ≤ m) : "echo" ∈ validWords m := by
  unfold validWords
  rw [List.mem_filter]
  exact ⟨by decide, decide_eq_true (by simpa using h)⟩

theorem buildCharSet_length (o : GenerationOptions) :
    (buildCharSet o).length =
      (if o.lower then 26 else 0) + ((if o.upper then 26 else 0) +
      ((if o.numbers then 10 else 0) + (if o.symbols then 30 else 0))) := by
  unfold buildCharSet
  simp only [List.length_append, apply_ite List.length, List.length_nil,
    show lower.length = 26 from by decide, show upper.length = 26 from by decide,
    show numbers.length = 10 from by decide, show symbols.length = 30 from by decide]
  omega

theorem buildCharSet_ne_nil (o : GenerationOptions)
    (h : (o.lower || o.upper || o.numbers || o.symbols) = true) :
    buildCharSet o ≠ [] := by
  intro hc
  have hl := buildCharSet_length o
  rw [hc] at hl
  cases hlo : o.lower <;> cases hup : o.upper <;> cases hnu : o.numbers <;>
    cases hsy : o.symbols <;> simp [hlo, hup, hnu, hsy] at h hl

theorem generatePassword_word_eq (fetchWord : Nat → List Char) (fillerPick : Nat → Nat)
    (insertPick : Nat) (coin : Nat → Bool) (length : Nat) (o : GenerationOptions)
    (wordCase : WordCase) (hw : o.word = true) :
    generatePassword fetchWord fillerPick insertPick coin length o wordCase =
      if !(buildCharSet o).isEmpty &&
          decide (0 < length - (applyWordCase (fetchWord (min length 8)) wordCase coin).length)
      then
        (generateRandomChars fillerPick
            (length - (applyWordCase (fetchWord (min length 8)) wordCase coin).length)
            (buildCharSet o)).take insertPick ++
          applyWordCase (fetchWord (min length 8)) wordCase coin ++
          (generateRandomChars fillerPick
            (length - (applyWordCase (fetchWord (min length 8)) wordCase coin).length)
            (buildCharSet o)).drop insertPick
      else (applyWordCase (fetchWord (min length 8)) wordCase coin).take length := by
  unfold generatePassword
  rw [hw]
  simp only [Bool.not_true, Bool.and_false, Bool.false_eq_true, if_false, if_true]

/-! Claim theorems. -/

/-- C1: for every maxLength ≥ 1, `fetchRandomWord` returns a string of
length at most maxLength, whatever the provider outcomes (all may fail or
yield out-of-bound words): errors are absorbed in the loop and the
dictionary or synthetic fallback still yields a word.  Totality ("never
rejects") holds by construction: the model is a total function. -/
theorem fetchRandomWord_length_le (outcomes : Nat → Option String) (dictPick : Nat)
    (consPick vowelPick : Nat → Nat) (maxLength cursor : Nat) (h : 1 ≤ maxLength) :
    (fetchRandomWord outcomes dictPick consPick vowelPick maxLength cursor).1.length
      ≤ maxLength := by
  unfold fetchRandomWord
  cases hw : (fetchLoop outcomes maxLength NUM_APIS cursor).word with
  | some w =>
    simp only [hw]
    exact (fetchLoop_word_spec outcomes maxLength NUM_APIS cursor w hw).2
  | none =>
    simp only [hw]
    cases hd : (validWords maxLength).get? dictPick with
    | some w =>
      simp only [hd]
      have hmem := List.get?_mem hd
      unfold validWords at hmem
      have := (List.mem_filter.mp hmem).2
      simpa using this
    | none =>
      simp only [hd]
      show (String.mk (generateFallbackWord consPick vowelPick maxLength)).length ≤ maxLength
      show (generateFallbackWord consPick vowelPick maxLength).length ≤ maxLength
      exact generateFallbackWord_length_le _ _ _

/-- C5: the rotation is round-robin over the fixed list of NUM_APIS = 4
providers: within one call the cursor advances by exactly one per attempt
(cursor after = cursor at entry + number of attempts) and attempt j uses
provider (c + j) mod NUM_APIS; across consecutive calls in which every
provider fails, call i (counted from the module-initial cursor 0) enters
at cursor i * NUM_APIS — the cumulative number of prior attempts — so its
attempt order starts at provider (cumulative prior attempts) mod NUM_APIS. -/
theorem providerRotation_roundRobin (outcomes : Nat → Option String) (m : Nat) :
    NUM_APIS = 4 ∧
    (∀ n c, (fetchLoop outcomes m n c).cursor =
      c + (fetchLoop outcomes m n c).trace.length) ∧
    (∀ n c, (fetchLoop outcomes m n c).trace =
      (List.range (fetchLoop outcomes m n c).trace.length).map
        (fun j => (c + j) % NUM_APIS)) ∧
    ((∀ v, attemptAccepts m (outcomes v) = false) →
      ∀ i, iterateCalls outcomes m i = i * NUM_APIS ∧
        (fetchLoop outcomes m NUM_APIS (iterateCalls outcomes m i)).trace =
          (List.range NUM_APIS).map (fun j => (i * NUM_APIS + j) % NUM_APIS)) := by
  refine ⟨rfl, fetchLoop_cursor outcomes m, fetchLoop_trace_eq outcomes m, ?_⟩
  intro hf i
  refine ⟨iterateCalls_all_fail outcomes m hf i, ?_⟩
  rw [iterateCalls_all_fail outcomes m hf i, fetchLoop_all_fail outcomes m hf]

/-- Witness for C5: all providers failing, third call (i = 2). -/
theorem providerRotation_roundRobin_witness :
    iterateCalls (fun _ => none) 5 2 = 2 * NUM_APIS ∧
      (fetchLoop (fun _ => none) 5 NUM_APIS (iterateCalls (fun _ => none) 5 2)).trace =
        (List.range NUM_APIS).map (fun j => (2 * NUM_APIS + j) % NUM_APIS) :=
  (providerRotation_roundRobin (fun _ => none) 5).2.2.2 (fun _ => rfl) 2

/-- C6: when no provider attempt is accepted, `fetchRandomWord` returns
the word at the uniformly drawn index of the dictionary entries of length
at most maxLength; when no entry qualifies, it returns the synthetic word
of exactly maxLength characters, with a consonant-pool character at every
even position and a vowel-pool character at every odd one (the pools have
21 and 5 letters). -/
theorem fetchRandomWord_fallback (outcomes : Nat → Option String) (dictPick : Nat)
    (consPick vowelPick : Nat → Nat) (maxLength cursor : Nat)
    (hf : ∀ v, attemptAccepts maxLength (outcomes v) = false) :
    consonants.length = 21 ∧ vowels.length = 5 ∧
    (∀ h : dictPick < (validWords maxLength).length,
      (fetchRandomWord outcomes dictPick consPick vowelPick maxLength cursor).1 =
        (validWords maxLength).get ⟨dictPick, h⟩) ∧
    (validWords maxLength = [] →
      (fetchRandomWord outcomes dictPick consPick vowelPick maxLength cursor).1 =
        String.mk (generateFallbackWord consPick vowelPick maxLength) ∧
      ((∀ i, consPick i < consonants.length) → (∀ i, vowelPick i < vowels.length) →
        (generateFallbackWord consPick vowelPick maxLength).length = maxLength ∧
        ∀ (i : Nat) (h : i < (generateFallbackWord consPick vowelPick maxLength).length),
          (generateFallbackWord consPick vowelPick maxLength).get ⟨i, h⟩ ∈
            (if i % 2 = 0 then consonants else vowels))) := by
  refine ⟨by decide, by decide, ?_, ?_⟩
  · intro h
    exact fetchRandomWord_dict_case outcomes dictPick consPick vowelPick maxLength cursor hf h
  · intro hempty
    refine ⟨fetchRandomWord_synth_case outcomes dictPick consPick vowelPick maxLength cursor
      hf hempty, ?_⟩
    intro h1 h2
    exact ⟨generateFallbackWord_length consPick vowelPick maxLength h1 h2,
      fun i h => generateFallbackWord_get_mem consPick vowelPick maxLength h1 h2 i h⟩

/-- Witness for C6: all providers fail; maxLength 2 makes the filtered
dictionary empty, so the synthetic branch is exercised. -/
theorem fetchRandomWord_fallback_witness :
    validWords 2 = [] ∧
      (fetchRandomWord (fun _ => none) 0 (fun _ => 0) (fun _ => 0) 2 0).1 =
        String.mk (generateFallbackWord (fun _ => 0) (fun _ => 0) 2) :=
  ⟨by decide,
    (((fetchRandomWord_fallback (fun _ => none) 0 (fun _ => 0) (fun _ => 0) 2 0
      (fun _ => rfl)).2.2.2 (by decide)).1)⟩

/-- C10: every built-in dictionary entry has length at least 4 and some
entry has length exactly 4; hence for maxLength ≥ 4 the filtered
dictionary is non-empty and the all-fail fallback returns a dictionary
word, while (within the contract domain maxLength ≥ 1) the filtered list
is empty — so the synthetic generator is reached — exactly for
maxLength ∈ \x7b1, 2, 3\x7d. -/
theorem localWords_min_length :
    (∀ w ∈ localWords, 4 ≤ w.length) ∧
    (∃ w ∈ localWords, w.length = 4) ∧
    (∀ m, 4 ≤ m → validWords m ≠ []) ∧
    (∀ m, 1 ≤ m → (validWords m = [] ↔ m < 4)) ∧
    (∀ (outcomes : Nat → Option String) (dictPick : Nat)
      (consPick vowelPick : Nat → Nat) (m cursor : Nat),
      (∀ v, attemptAccepts m (outcomes v) = false) → 4 ≤ m →
      ∀ h : dictPick < (validWords m).length,
      (fetchRandomWord outcomes dictPick consPick vowelPick m cursor).1 ∈ localWords) := by
  refine ⟨by decide, ⟨"echo", by decide, by decide⟩, ?_, ?_, ?_⟩
  · intro m hm
    exact List.ne_nil_of_mem (echo_mem_validWords m hm)
  · intro m hm
    constructor
    · intro hempty
      by_contra hlt
      exact List.ne_nil_of_mem (echo_mem_validWords m (by omega)) hempty
    · intro hlt
      interval_cases m <;> decide
  · intro outcomes dictPick consPick vowelPick m cursor hf _ h
    rw [fetchRandomWord_dict_case outcomes dictPick consPick vowelPick m cursor hf h]
    have := List.get_mem (validWords m) dictPick h
    unfold validWords at this
    exact (List.mem_filter.mp this).1

/-- Witness for C10: all providers fail, maxLength 7, dictionary index 0. -/
theorem localWords_min_length_witness :
    (fetchRandomWord (fun _ => none) 0 (fun _ => 0) (fun _ => 0) 7 0).1 ∈ localWords :=
  localWords_min_length.2.2.2.2 (fun _ => none) 0 (fun _ => 0) (fun _ => 0) 7 0
    (fun _ => rfl) (by decide) (by decide)

/-- C9: with every character-class flag false and word inclusion
disabled, `generatePassword` returns the empty string for every requested
length (a valid outcome — the model is a total function, so nothing is
thrown); conversely, whenever at least one character-class flag is true,
the built character set is non-empty. -/
theorem generatePassword_empty_config (fetchWord : Nat → List Char)
    (fillerPick : Nat → Nat) (insertPick : Nat) (coin : Nat → Bool)
    (length : Nat) (wordCase : WordCase) :
    generatePassword fetchWord fillerPick insertPick coin length
      ⟨false, false, false, false, false⟩ wordCase = [] ∧
    ∀ o : GenerationOptions, (o.lower || o.upper || o.numbers || o.symbols) = true →
      buildCharSet o ≠ [] :=
  ⟨rfl, buildCharSet_ne_nil⟩

/-- Witness for C9: length 12, applying the second conjunct to the
lower-only option record. -/
theorem generatePassword_empty_config_witness :
    buildCharSet ⟨true, false, false, false, false⟩ ≠ [] :=
  (generatePassword_empty_config (fun _ => []) (fun _ => 0) 0 (fun _ => false) 12
    WordCase.lower).2 ⟨true, false, false, false, false⟩ (by decide)

/-- C2: with word mode off and at least one character-class flag on, the
password has length exactly the requested length and every character
comes from the built character set; with all four flags the set has
26 + 26 + 10 + 30 = 92 characters. -/
theorem generatePassword_charMode (fetchWord : Nat → List Char) (fillerPick : Nat → Nat)
    (insertPick : Nat) (coin : Nat → Bool) (length : Nat) (o : GenerationOptions)
    (wordCase : WordCase) (hw : o.word = false)
    (hflag : (o.lower || o.upper || o.numbers || o.symbols) = true)
    (hpick : ∀ i, fillerPick i < (buildCharSet o).length) :
    ((generatePassword fetchWord fillerPick insertPick coin length o wordCase).length
        = length ∧
      ∀ c ∈ generatePassword fetchWord fillerPick insertPick coin length o wordCase,
        c ∈ buildCharSet o) ∧
    (buildCharSet ⟨true, true, true, true, false⟩).length = 92 := by
  have hres : generatePassword fetchWord fillerPick insertPick coin length o wordCase =
      generateRandomChars fillerPick length (buildCharSet o) := by
    unfold generatePassword
    rw [hw]
    rw [if_neg ?_, if_neg (by simp)]
    rw [Bool.not_false, Bool.and_true]
    simp only [List.isEmpty_iff]
    exact buildCharSet_ne_nil o hflag
  refine ⟨⟨?_, ?_⟩, by decide⟩
  · rw [hres]
    exact generateRandomChars_length fillerPick length (buildCharSet o) hpick
  · rw [hres]
    intro c hc
    exact mem_generateRandomChars hc

/-- Witness for C2: the spec scenario — length 16, all four flags, word
off. -/
theorem generatePassword_charMode_witness :
    ((generatePassword (fun _ => []) (fun _ => 0) 0 (fun _ => false) 16
        ⟨true, true, true, true, false⟩ WordCase.lower).length = 16 ∧
      ∀ c ∈ generatePassword (fun _ => []) (fun _ => 0) 0 (fun _ => false) 16
        ⟨true, true, true, true, false⟩ WordCase.lower,
        c ∈ buildCharSet ⟨true, true, true, true, false⟩) ∧
    (buildCharSet ⟨true, true, true, true, false⟩).length = 92 :=
  generatePassword_charMode (fun _ => []) (fun _ => 0) 0 (fun _ => false) 16
    ⟨true, true, true, true, false⟩ WordCase.lower rfl (by decide)
    (fun _ => by
      show (0 : Nat) < (buildCharSet ⟨true, true, true, true, false⟩).length
      decide)

/-- C3: in word mode, for every resolved word and every random choice of
filler, insertion offset and case coins, the final password never exceeds
the requested length; when the case-adjusted word is at least as long as
the requested length the result is the word truncated to exactly that
length, and otherwise the case-adjusted word occurs as a contiguous
substring of the result. -/
theorem generatePassword_wordMode (fetchWord : Nat → List Char) (fillerPick : Nat → Nat)
    (insertPick : Nat) (coin : Nat → Bool) (length : Nat) (o : GenerationOptions)
    (wordCase : WordCase) (hw : o.word = true) :
    (generatePassword fetchWord fillerPick insertPick coin length o wordCase).length
      ≤ length ∧
    (length ≤ (applyWordCase (fetchWord (min length 8)) wordCase coin).length →
      generatePassword fetchWord fillerPick insertPick coin length o wordCase =
        (applyWordCase (fetchWord (min length 8)) wordCase coin).take length ∧
      (generatePassword fetchWord fillerPick insertPick coin length o wordCase).length
        = length) ∧
    ((applyWordCase (fetchWord (min length 8)) wordCase coin).length < length →
      (applyWordCase (fetchWord (min length 8)) wordCase coin).IsInfix
        (generatePassword fetchWord fillerPick insertPick coin length o wordCase)) := by
  rw [generatePassword_word_eq fetchWord fillerPick insertPick coin length o wordCase hw]
  by_cases hcond : (!(buildCharSet o).isEmpty && decide
      (0 < length - (applyWordCase (fetchWord (min length 8)) wordCase coin).length)) = true
  · rw [if_pos hcond]
    have hlt : (applyWordCase (fetchWord (min length 8)) wordCase coin).length < length := by
      have h2 := ((Bool.and_eq_true _ _).mp hcond).2
      have := of_decide_eq_true h2
      omega
    have hrc := generateRandomChars_length_le fillerPick
      (length - (applyWordCase (fetchWord (min length 8)) wordCase coin).length)
      (buildCharSet o)
    refine ⟨?_, ?_, ?_⟩
    · simp only [List.length_append, List.length_take, List.length_drop]
      omega
    · intro hle
      exact absurd hle (by omega)
    · intro _
      exact ⟨_, _, rfl⟩
  · rw [if_neg hcond]
    refine ⟨?_, ?_, ?_⟩
    · simp only [List.length_take]
      omega
    · intro hle
      refine ⟨rfl, ?_⟩
      simp only [List.length_take]
      omega
    · intro hlt
      rw [List.take_of_length_le (le_of_lt hlt)]

/-- Witness for C3: word "ab" resolved, lower case, length 5, lower-class
filler; the instantiated third conjunct (the word is an infix). -/
theorem generatePassword_wordMode_witness :
    (applyWordCase ((fun _ => ['a', 'b']) (min 5 8)) WordCase.lower (fun _ => false)).IsInfix
      (generatePassword (fun _ => ['a', 'b']) (fun _ => 0) 1 (fun _ => false) 5
        ⟨true, false, false, false, true⟩ WordCase.lower) :=
  (generatePassword_wordMode (fun _ => ['a', 'b']) (fun _ => 0) 1 (fun _ => false) 5
    ⟨true, false, false, false, true⟩ WordCase.lower rfl).2.2 (by decide)

/-- C4: in word mode `generatePassword` consults the word source only at
the length bound min(requestedLength, 8): the output depends on the
fetcher only through its value there; and whenever the fetcher meets the
Word Source contract (word length bounded by the requested bound), the
case-adjusted embedded word segment has length at most
min(requestedLength, 8) — for every length and flag combination. -/
theorem generatePassword_wordBound (f g : Nat → List Char) (fillerPick : Nat → Nat)
    (insertPick : Nat) (coin : Nat → Bool) (length : Nat) (o : GenerationOptions)
    (wordCase : WordCase) (hw : o.word = true) :
    (f (min length 8) = g (min length 8) →
      generatePassword f fillerPick insertPick coin length o wordCase =
        generatePassword g fillerPick insertPick coin length o wordCase) ∧
    ((∀ n, (f n).length ≤ n) →
      (applyWordCase (f (min length 8)) wordCase coin).length ≤ min length 8) := by
  constructor
  · intro hfg
    rw [generatePassword_word_eq f fillerPick insertPick coin length o wordCase hw,
      generatePassword_word_eq g fillerPick insertPick coin length o wordCase hw, hfg]
  · intro hcontract
    rw [applyWordCase_length]
    exact hcontract (min length 8)

/-- Witness for C4: two fetchers agreeing at min(5, 8) = 5 produce the
same password. -/
theorem generatePassword_wordBound_witness :
    generatePassword (fun _ => ['a']) (fun _ => 0) 0 (fun _ => false) 5
      ⟨true, false, false, false, true⟩ WordCase.lower =
    generatePassword (fun n => if 5 ≤ n then ['a'] else ['b']) (fun _ => 0) 0
      (fun _ => false) 5 ⟨true, false, false, false, true⟩ WordCase.lower :=
  (generatePassword_wordBound (fun _ => ['a']) (fun n => if 5 ≤ n then ['a'] else ['b'])
    (fun _ => 0) 0 (fun _ => false) 5 ⟨true, false, false, false, true⟩ WordCase.lower
    rfl).1 (by decide)

/-- Witness for C1 at concrete inputs: all providers fail, maxLength 5. -/
theorem fetchRandomWord_length_le_witness :
    1 ≤ 5 ∧
      (fetchRandomWord (fun _ => none) 0 (fun _ => 0) (fun _ => 0) 5 0).1.length ≤ 5 :=
  ⟨by decide, fetchRandomWord_length_le (fun _ => none) 0 (fun _ => 0) (fun _ => 0) 5 0
    (by decide)⟩

theorem toNat_ofNat_valid (n : Nat) (h : n < 55296) : (Char.ofNat n).toNat = n := by
  unfold Char.ofNat
  split
  · rfl
  · exact absurd (Or.inl h) (by assumption)

theorem caesarShiftChar_lower (shift : Nat) (c : Char) (h : isLowerAlpha c = true) :
    (caesarShiftChar shift c).toNat = (c.toNat - 97 + shift + 26) % 26 + 97 ∧
    isLowerAlpha (caesarShiftChar shift c) = true := by
  have hc : 97 ≤ c.toNat ∧ c.toNat ≤ 122 := by
    unfold isLowerAlpha at h
    simpa using h
  unfold caesarShiftChar
  rw [if_pos h]
  have hv : (c.toNat - 97 + shift + 26) % 26 + 97 < 55296 := by omega
  refine ⟨toNat_ofNat_valid _ hv, ?_⟩
  unfold isLowerAlpha
  rw [toNat_ofNat_valid _ hv]
  simp only [Bool.and_eq_true, decide_eq_true_eq]
  omega

theorem caesarShiftChar_upper (shift : Nat) (c : Char) (hu : isUpperAlpha c = true) :
    (caesarShiftChar shift c).toNat = (c.toNat - 65 + shift + 26) % 26 + 65 ∧
    isUpperAlpha (caesarShiftChar shift c) = true := by
  have hc : 65 ≤ c.toNat ∧ c.toNat ≤ 90 := by
    unfold isUpperAlpha at hu
    simpa using hu
  have hl : isLowerAlpha c = false := by
    unfold isLowerAlpha
    simp only [Bool.and_eq_true, decide_eq_true_eq, Bool.and_eq_false_iff,
      decide_eq_false_iff_not]
    omega
  unfold caesarShiftChar
  rw [if_neg (by simp [hl]), if_pos hu]
  have hv : (c.toNat - 65 + shift + 26) % 26 + 65 < 55296 := by omega
  refine ⟨toNat_ofNat_valid _ hv, ?_⟩
  unfold isUpperAlpha
  rw [toNat_ofNat_valid _ hv]
  simp only [Bool.and_eq_true, decide_eq_true_eq]
  omega

theorem caesarShiftChar_other (shift : Nat) (c : Char)
    (hl : isLowerAlpha c = false) (hu : isUpperAlpha c = false) :
    caesarShiftChar shift c = c := by
  unfold caesarShiftChar
  rw [if_neg (by simp [hl]), if_neg (by simp [hu])]

theorem caesarShiftChar_roundtrip (shift : Nat) (h1 : 1 ≤ shift) (h2 : shift ≤ 25)
    (c : Char) : caesarShiftChar (26 - shift) (caesarShiftChar shift c) = c := by
  cases hl : isLowerAlpha c with
  | true =>
    have hc : 97 ≤ c.toNat ∧ c.toNat ≤ 122 := by
      unfold isLowerAlpha at hl
      simpa using hl
    obtain ⟨hd, hdl⟩ := caesarShiftChar_lower shift c hl
    set d := caesarShiftChar shift c with hdef
    unfold caesarShiftChar
    rw [if_pos hdl, hd]
    have harg : ((c.toNat - 97 + shift + 26) % 26 + 97 - 97 + (26 - shift) + 26) % 26 + 97
        = c.toNat := by omega
    rw [harg, Char.ofNat_toNat]
  | false =>
    cases hu : isUpperAlpha c with
    | true =>
      have hc : 65 ≤ c.toNat ∧ c.toNat ≤ 90 := by
        unfold isUpperAlpha at hu
        simpa using hu
      obtain ⟨hd, hdu⟩ := caesarShiftChar_upper shift c hu
      have hdl : isLowerAlpha (caesarShiftChar shift c) = false := by
        unfold isLowerAlpha
        rw [hd]
        simp only [Bool.and_eq_false_iff, decide_eq_false_iff_not]
        omega
      set d := caesarShiftChar shift c with hdef
      unfold caesarShiftChar
      rw [if_neg (by simp [hdl]), if_pos hdu, hd]
      have harg : ((c.toNat - 65 + shift + 26) % 26 + 65 - 65 + (26 - shift) + 26) % 26 + 65
          = c.toNat := by omega
      rw [harg, Char.ofNat_toNat]
    | false =>
      rw [caesarShiftChar_other shift c hl hu, caesarShiftChar_other (26 - shift) c hl hu]

/-- C7: for every character list and shift in [1, 25], encoding with the
shift and then with 26 - shift restores the original text, and every
character that is neither a lower- nor an upper-case ASCII letter is a
fixed point of the per-character cipher map. -/
theorem caesarCipher_roundtrip (text : List Char) (shift : Nat)
    (h1 : 1 ≤ shift) (h2 : shift ≤ 25) :
    caesarCipher (caesarCipher text shift) (26 - shift) = text ∧
    ∀ c ∈ text, isLowerAlpha c = false → isUpperAlpha c = false →
      caesarShiftChar shift c = c := by
  constructor
  · unfold caesarCipher
    rw [List.map_map]
    refine Eq.trans (List.map_congr_left ?_) (List.map_id text)
    intro a _
    exact caesarShiftChar_roundtrip shift h1 h2 a
  · intro c _ hl hu
    exact caesarShiftChar_other shift c hl hu

/-- Witness for C7: the round trip at text "Ab!" and shift 3. -/
theorem caesarCipher_roundtrip_witness :
    1 ≤ 3 ∧ caesarCipher (caesarCipher "Ab!".toList 3) (26 - 3) = "Ab!".toList :=
  ⟨by decide, (caesarCipher_roundtrip "Ab!".toList 3 (by decide) (by decide)).1⟩

/-- C8: for shift in [1, 25] the cipher moves each ASCII letter forward
by shift positions inside its own case's 26-letter alphabet, wrapping
modulo 26 and preserving the case, and leaves every other character
unchanged; `caesarCipher` applies this map characterwise, and on
"Attack At Dawn" with shift 3 it yields "Dwwdfn Dw Gdzq". -/
theorem caesarCipher_spec (shift : Nat) (h1 : 1 ≤ shift) (h2 : shift ≤ 25) :
    (∀ c, isLowerAlpha c = true →
      (caesarShiftChar shift c).toNat = 97 + (c.toNat - 97 + shift) % 26 ∧
      isLowerAlpha (caesarShiftChar shift c) = true) ∧
    (∀ c, isUpperAlpha c = true →
      (caesarShiftChar shift c).toNat = 65 + (c.toNat - 65 + shift) % 26 ∧
      isUpperAlpha (caesarShiftChar shift c) = true) ∧
    (∀ c, isLowerAlpha c = false → isUpperAlpha c = false →
      caesarShiftChar shift c = c) ∧
    (∀ text : List Char, caesarCipher text shift = text.map (caesarShiftChar shift)) ∧
    caesarCipher "Attack At Dawn".toList 3 = "Dwwdfn Dw Gdzq".toList := by
  refine ⟨?_, ?_, caesarShiftChar_other shift, fun _ => rfl, by decide⟩
  · intro c hc
    obtain ⟨hd, hdl⟩ := caesarShiftChar_lower shift c hc
    have : 97 ≤ c.toNat ∧ c.toNat ≤ 122 := by
      unfold isLowerAlpha at hc
      simpa using hc
    exact ⟨by rw [hd]; omega, hdl⟩
  · intro c hc
    obtain ⟨hd, hdu⟩ := caesarShiftChar_upper shift c hc
    have : 65 ≤ c.toNat ∧ c.toNat ≤ 90 := by
      unfold isUpperAlpha at hc
      simpa using hc
    exact ⟨by rw [hd]; omega, hdu⟩

/-- Witness for C8: shift 3 and the "Attack At Dawn" scenario. -/
theorem caesarCipher_spec_witness :
    1 ≤ 3 ∧ caesarCipher "Attack At Dawn".toList 3 = "Dwwdfn Dw Gdzq".toList :=
  ⟨by decide, (caesarCipher_spec 3 (by decide) (by decide)).2.2.2.2⟩

end PassGen
